import Mathlib

/-!
Shallow embedding of the Intcode virtual machine (src/src/lib.rs) and proofs
of the specification claims about it.

Conventions of the embedding:
* Rust `i64` values are unbounded `Int`, with two's-complement wrapping
  (`i64wrap`) inserted exactly where the compiled arithmetic wraps
  (release-profile `+`, `*`, `+=` on `i64`).
* Rust `%` and `/` on `i64` truncate toward zero, so they are `Int.tmod`
  and `Int.tdiv`.
* Rust `usize` is `Nat`; the cast `as usize` from an `i64` reinterprets the
  value modulo 2^64 (`usizeOf`).
* Rust panics are modelled as `Except` errors; where the claim concerns the
  machine state at the moment of the panic, the error value carries the
  state as mutated so far.
* `HashMap<usize, Number>` is modelled observationally by an association
  list where insert conses and lookup returns the most recent binding.
-/

namespace Intcode

/-- All values in any program's memory are of this type (Rust: `pub type Number = i64`). -/
abbrev Number := Int

/-- Two's-complement wrapping into the signed 64-bit range: the behaviour of
overflowing `i64` arithmetic in the compiled (release) program. -/
def i64wrap (x : Int) : Int := (x + 2 ^ 63) % 2 ^ 64 - 2 ^ 63

/-- The `as usize` cast applied to an `i64` value: reinterpret the bits, i.e.
reduce modulo 2^64. -/
def usizeOf (x : Int) : Nat := (x % 2 ^ 64).toNat

inductive ParameterMode
| Position
| Immediate
| Relative
deriving DecidableEq

inductive Opcode
| Add
| Multiply
| Input
| Output
| JumpIfTrue
| JumpIfFalse
| LessThan
| Equals
| RelativeBaseOffset
| Halt
deriving DecidableEq

/-- The abort conditions of the interpreter (each a Rust panic). -/
inductive ExecError
| unknownMode (i : Number)
| unknownOpcode (i : Number)
| immediatePosition
| unreachableParam
| runHalted
deriving DecidableEq

/-- ParameterMode::from (panic modelled as an error). -/
def ParameterMode.ofNumber (i : Number) : Except ExecError ParameterMode :=
  if i = 0 then .ok .Position
  else if i = 1 then .ok .Immediate
  else if i = 2 then .ok .Relative
  else .error (.unknownMode i)

/-- Opcode::from (panic modelled as an error). -/
def Opcode.ofNumber (i : Number) : Except ExecError Opcode :=
  if i = 1 then .ok .Add
  else if i = 2 then .ok .Multiply
  else if i = 3 then .ok .Input
  else if i = 4 then .ok .Output
  else if i = 5 then .ok .JumpIfTrue
  else if i = 6 then .ok .JumpIfFalse
  else if i = 7 then .ok .LessThan
  else if i = 8 then .ok .Equals
  else if i = 9 then .ok .RelativeBaseOffset
  else if i = 99 then .ok .Halt
  else .error (.unknownOpcode i)

structure Instruction where
  opcode : Opcode
  param1 : ParameterMode
  param2 : ParameterMode
  param3 : ParameterMode
deriving DecidableEq

/-- Instruction::from: extract the opcode from `i % 100`, then the three
parameter modes from successive decimal digits (`i /= 100`, then `% 10` and
`/= 10` twice more); Rust `%` and `/` truncate toward zero. -/
def Instruction.ofNumber (i : Number) : Except ExecError Instruction :=
  match Opcode.ofNumber (i.tmod 100) with
  | .error e => .error e
  | .ok opcode =>
    match ParameterMode.ofNumber ((i.tdiv 100).tmod 10) with
    | .error e => .error e
    | .ok param1 =>
      match ParameterMode.ofNumber (((i.tdiv 100).tdiv 10).tmod 10) with
      | .error e => .error e
      | .ok param2 =>
        match ParameterMode.ofNumber ((((i.tdiv 100).tdiv 10).tdiv 10).tmod 10) with
        | .error e => .error e
        | .ok param3 =>
          .ok { opcode := opcode, param1 := param1, param2 := param2, param3 := param3 }

inductive ProgramState
| Running
| WaitingForInput
| Halted
deriving DecidableEq

/-- Observational model of `HashMap::get` / `contains_key`: lookup returns the
most recently inserted binding for the key, if any. -/
def memLookup : List (Nat × Number) → Nat → Option Number
| [], _ => none
| (k, v) :: rest, a => if a = k then some v else memLookup rest a

/-- Observational model of `HashMap::insert`: the new binding shadows any
older one for the same key. -/
def memInsert (m : List (Nat × Number)) (k : Nat) (v : Number) : List (Nat × Number) :=
  (k, v) :: m

/-- The interpreter state (Rust `struct Program`); `sp` is the instruction
pointer, `extra_memory` the sparse extension beyond the initial vector. -/
structure Program where
  program : List Number
  sp : Nat
  input : List Number
  input_pos : Nat
  output : List Number
  output_pos : Nat
  state : ProgramState
  extra_memory : List (Nat × Number)
  relative_base : Number
deriving DecidableEq

/-- Program::new: a fresh VM is Running with pointer 0, relative base 0 and
empty queues. -/
def Program.new (program_vec : List Number) : Program :=
  { program := program_vec
    sp := 0
    input := []
    input_pos := 0
    output := []
    output_pos := 0
    state := ProgramState.Running
    extra_memory := []
    relative_base := 0 }

/-- Program::push_input: append to the input queue and wake a VM that is
waiting for input. -/
def Program.push_input (p : Program) (i : Number) : Program :=
  let p1 := { p with input := p.input ++ [i] }
  match p1.state with
  | ProgramState.WaitingForInput => { p1 with state := ProgramState.Running }
  | _ => p1

/-- Program::push_output. -/
def Program.push_output (p : Program) (i : Number) : Program :=
  { p with output := p.output ++ [i] }

/-- Program::get_input: read the next unconsumed input and advance the read
cursor. Every call site guards with `input.len() > input_pos`, under which the
`getD` equals the Rust indexing (which would panic out of range). -/
def Program.get_input (p : Program) : Number × Program :=
  (p.input.getD p.input_pos 0, { p with input_pos := p.input_pos + 1 })

/-- Program::has_output. -/
def Program.has_output (p : Program) : Bool :=
  p.output_pos < p.output.length

/-- Program::last_output: the most recently appended output, ignoring the
read cursor. -/
def Program.last_output (p : Program) : Option Number :=
  if 0 < p.output.length then some (p.output.getD (p.output.length - 1) 0)
  else none

/-- Program::get_output: consume and return the oldest unread output, or
none when all outputs have been consumed. -/
def Program.get_output (p : Program) : Option Number × Program :=
  if p.has_output then
    let q := { p with output_pos := p.output_pos + 1 }
    (some (q.output.getD (q.output_pos - 1) 0), q)
  else (none, p)

/-- Program::get_mem: the primary segment if the address is in range, else
the sparse extension, else 0. -/
def Program.get_mem (p : Program) (pos : Nat) : Number :=
  if pos < p.program.length then p.program.getD pos 0
  else
    match memLookup p.extra_memory pos with
    | some v => v
    | none => 0

/-- Program::set_mem: write in place within the primary segment, else insert
into the sparse extension. -/
def Program.set_mem (p : Program) (pos : Nat) (val : Number) : Program :=
  if pos < p.program.length then { p with program := p.program.set pos val }
  else { p with extra_memory := memInsert p.extra_memory pos val }

/-- The instruction-pointer widths of `Program::increase_sp`. -/
def Opcode.width : Opcode → Nat
| .Add => 4
| .Multiply => 4
| .Input => 2
| .Output => 2
| .JumpIfTrue => 3
| .JumpIfFalse => 3
| .LessThan => 4
| .Equals => 4
| .RelativeBaseOffset => 2
| .Halt => 0

/-- Program::increase_sp: re-decode the word at the instruction pointer and
advance by the opcode's width (the re-decode can panic if that word was
overwritten by the instruction just executed). -/
def Program.increase_sp (p : Program) : Except (ExecError × Program) Program :=
  match Instruction.ofNumber (p.get_mem p.sp) with
  | .error e => .error (e, p)
  | .ok instr => .ok { p with sp := p.sp + instr.opcode.width }

/-- The mode selected for parameter k (the mode match shared by
Program::param and Program::get_pos; other indices are unreachable in the source). -/
def Instruction.modeOf (instr : Instruction) : Nat → Option ParameterMode
| 1 => some instr.param1
| 2 => some instr.param2
| 3 => some instr.param3
| _ => none

/-- Program::param: resolve the value of parameter `k` of the current
instruction according to its mode. -/
def Program.param (p : Program) (k : Nat) : Except ExecError Number :=
  match Instruction.ofNumber (p.get_mem p.sp) with
  | .error e => .error e
  | .ok instr =>
    let value := p.get_mem (p.sp + k)
    match instr.modeOf k with
    | none => .error .unreachableParam
    | some ParameterMode.Position => .ok (p.get_mem (usizeOf value))
    | some ParameterMode.Immediate => .ok value
    | some ParameterMode.Relative =>
        .ok (p.get_mem (usizeOf (i64wrap (p.relative_base + value))))

/-- Program::get_pos: resolve the address of parameter `k`; Immediate mode
panics (modelled as the `immediatePosition` error). -/
def Program.get_pos (p : Program) (k : Nat) : Except ExecError Nat :=
  match Instruction.ofNumber (p.get_mem p.sp) with
  | .error e => .error e
  | .ok instr =>
    let pos := p.get_mem (p.sp + k)
    match instr.modeOf k with
    | none => .error .unreachableParam
    | some ParameterMode.Position => .ok (usizeOf pos)
    | some ParameterMode.Immediate => .error .immediatePosition
    | some ParameterMode.Relative => .ok (usizeOf (i64wrap (p.relative_base + pos)))

/-- Program::execute_instruction, mirroring the source's statement order:
decode the word at the instruction pointer, check for the Halted state,
dispatch on the opcode, then (unless the instruction blocked or jumped)
advance the pointer via `increase_sp`. An error carries the state exactly as
mutated when the corresponding Rust panic fires. -/
def Program.execute_instruction (p : Program) : Except (ExecError × Program) Program :=
  match Instruction.ofNumber (p.get_mem p.sp) with
  | .error e => .error (e, p)
  | .ok instr =>
    if p.state = ProgramState.Halted then .error (.runHalted, p)
    else
      match instr.opcode with
      | .Add =>
        match p.get_pos 3 with
        | .error e => .error (e, p)
        | .ok pos =>
          match p.param 1 with
          | .error e => .error (e, p)
          | .ok v1 =>
            match p.param 2 with
            | .error e => .error (e, p)
            | .ok v2 => (p.set_mem pos (i64wrap (v1 + v2))).increase_sp
      | .Multiply =>
        match p.get_pos 3 with
        | .error e => .error (e, p)
        | .ok pos =>
          match p.param 1 with
          | .error e => .error (e, p)
          | .ok v1 =>
            match p.param 2 with
            | .error e => .error (e, p)
            | .ok v2 => (p.set_mem pos (i64wrap (v1 * v2))).increase_sp
      | .Input =>
        if p.input.length > p.input_pos then
          match p.get_input with
          | (input, p1) =>
            match p1.get_pos 1 with
            | .error e => .error (e, p1)
            | .ok pos => (p1.set_mem pos input).increase_sp
        else .ok { p with state := ProgramState.WaitingForInput }
      | .Output =>
        match p.param 1 with
        | .error e => .error (e, p)
        | .ok v => (p.push_output v).increase_sp
      | .JumpIfTrue =>
        match p.param 1 with
        | .error e => .error (e, p)
        | .ok v1 =>
          if v1 ≠ 0 then
            match p.param 2 with
            | .error e => .error (e, p)
            | .ok v2 => .ok { p with sp := usizeOf v2 }
          else p.increase_sp
      | .JumpIfFalse =>
        match p.param 1 with
        | .error e => .error (e, p)
        | .ok v1 =>
          if v1 = 0 then
            match p.param 2 with
            | .error e => .error (e, p)
            | .ok v2 => .ok { p with sp := usizeOf v2 }
          else p.increase_sp
      | .LessThan =>
        match p.get_pos 3 with
        | .error e => .error (e, p)
        | .ok pos =>
          match p.param 1 with
          | .error e => .error (e, p)
          | .ok v1 =>
            match p.param 2 with
            | .error e => .error (e, p)
            | .ok v2 => (p.set_mem pos (if v1 < v2 then 1 else 0)).increase_sp
      | .Equals =>
        match p.get_pos 3 with
        | .error e => .error (e, p)
        | .ok pos =>
          match p.param 1 with
          | .error e => .error (e, p)
          | .ok v1 =>
            match p.param 2 with
            | .error e => .error (e, p)
            | .ok v2 => (p.set_mem pos (if v1 = v2 then 1 else 0)).increase_sp
      | .RelativeBaseOffset =>
        match p.param 1 with
        | .error e => .error (e, p)
        | .ok v =>
          ({ p with relative_base := i64wrap (p.relative_base + v) }).increase_sp
      | .Halt => ({ p with state := ProgramState.Halted }).increase_sp

/-- Program::halted. -/
def Program.halted (p : Program) : Bool :=
  match p.state with
  | ProgramState.Running => false
  | ProgramState.Halted => true
  | ProgramState.WaitingForInput => false

/-- Program::halted_or_blocked. -/
def Program.halted_or_blocked (p : Program) : Bool :=
  match p.state with
  | ProgramState.Running => false
  | ProgramState.Halted => true
  | ProgramState.WaitingForInput => true

/-- Program::run_till_halted_or_blocked: while the state is Running, execute
one instruction. The Rust while-loop is fuelled; the guard is checked before
each step exactly as in the source, so a normal return is `.ok (some _)` and
`.ok none` only reports fuel exhaustion. -/
def Program.run_till_halted_or_blocked (fuel : Nat) (p : Program) :
    Except (ExecError × Program) (Option Program) :=
  if p.halted_or_blocked then .ok (some p)
  else
    match fuel with
    | 0 => .ok none
    | Nat.succ n =>
      match p.execute_instruction with
      | .error e => .error e
      | .ok q => q.run_till_halted_or_blocked n

/-- The machine state carried by an execution outcome: the final state on
normal completion, the state at the moment of the panic on an error. -/
def resultState : Except (ExecError × Program) Program → Program
| .ok p => p
| .error (_, p) => p

/-- A sequence of `set_mem` writes applied in order. -/
def applyWrites (p : Program) (ws : List (Nat × Number)) : Program :=
  ws.foldl (fun q w => q.set_mem w.1 w.2) p

/-- Repeated draining: n successive get_output calls, values discarded. -/
def drainN (n : Nat) (p : Program) : Program :=
  Nat.iterate (fun q => (Program.get_output q).2) n p

/-! ### Helper lemmas -/

theorem set_mem_get_mem_same (p : Program) (a : Nat) (v : Number) :
    (p.set_mem a v).get_mem a = v := by
  unfold Program.set_mem
  split
  case isTrue h =>
    unfold Program.get_mem
    simp only [List.length_set]
    rw [if_pos h, List.getD_eq_getElem?_getD, List.getElem?_set_self h]
    rfl
  case isFalse h =>
    unfold Program.get_mem
    rw [if_neg h]
    simp [memInsert, memLookup]

theorem set_mem_program_length (p : Program) (a : Nat) (v : Number) :
    (p.set_mem a v).program.length = p.program.length := by
  unfold Program.set_mem
  split <;> simp

theorem set_mem_state (p : Program) (a : Nat) (v : Number) :
    (p.set_mem a v).state = p.state := by
  unfold Program.set_mem
  split <;> rfl

theorem set_mem_lookup_other (p : Program) (a b : Nat) (v : Number) (hab : b ≠ a) :
    memLookup (p.set_mem b v).extra_memory a = memLookup p.extra_memory a := by
  unfold Program.set_mem
  split
  · rfl
  · simp only [memInsert, memLookup]
    rw [if_neg (Ne.symm hab)]

theorem tmod_hundred_of_neg (w : Int) (hw : w < 0) :
    -100 < w.tmod 100 ∧ w.tmod 100 ≤ 0 := by
  match w with
  | Int.ofNat n => exact absurd hw (Int.not_lt.mpr (Int.ofNat_nonneg n))
  | Int.negSucc m =>
    have h : (Int.negSucc m).tmod 100 = -(((m + 1) % 100 : Nat) : Int) := rfl
    have hlt : (m + 1) % 100 < 100 := Nat.mod_lt _ (by omega)
    rw [h]
    omega

theorem opcode_ofNumber_nonpos (r : Int) (hr : r ≤ 0) :
    Opcode.ofNumber r = .error (.unknownOpcode r) := by
  unfold Opcode.ofNumber
  rw [if_neg (show ¬r = 1 by omega), if_neg (show ¬r = 2 by omega),
    if_neg (show ¬r = 3 by omega), if_neg (show ¬r = 4 by omega),
    if_neg (show ¬r = 5 by omega), if_neg (show ¬r = 6 by omega),
    if_neg (show ¬r = 7 by omega), if_neg (show ¬r = 8 by omega),
    if_neg (show ¬r = 9 by omega), if_neg (show ¬r = 99 by omega)]

/-! ### Claim theorems -/

/-- Claim C7: memory write-then-read round-trip: for every address and value,
writing then reading the same address returns exactly the written value, both
inside the primary segment and in the sparse extension. -/
theorem claim7_write_read_roundtrip (p : Program) (a : Nat) (v : Number) :
    (p.set_mem a v).get_mem a = v :=
  set_mem_get_mem_same p a v

theorem applyWrites_get_mem_zero (ws : List (Nat × Number)) (p : Program) (a : Nat)
    (hlen : p.program.length ≤ a)
    (hext : memLookup p.extra_memory a = none)
    (hw : ∀ w ∈ ws, w.1 ≠ a) :
    (applyWrites p ws).get_mem a = 0 := by
  induction ws generalizing p with
  | nil =>
    unfold applyWrites
    simp only [List.foldl_nil]
    unfold Program.get_mem
    rw [if_neg (by omega), hext]
  | cons w ws ih =>
    unfold applyWrites
    simp only [List.foldl_cons]
    have hw1 : w.1 ≠ a := hw w (by simp)
    exact ih (p.set_mem w.1 w.2)
      (by rw [set_mem_program_length]; exact hlen)
      (by rw [set_mem_lookup_other p a w.1 w.2 hw1]; exact hext)
      (fun u hu => hw u (by simp [hu]))

/-- Claim C4: every address at or beyond the initial program's length that no
write has touched reads as 0 (addresses below the length are initialised by
construction, hence written). -/
theorem claim4_unwritten_reads_zero (v : List Number) (ws : List (Nat × Number)) (a : Nat)
    (ha : v.length ≤ a) (hw : ∀ w ∈ ws, w.1 ≠ a) :
    (applyWrites (Program.new v) ws).get_mem a = 0 :=
  applyWrites_get_mem_zero ws (Program.new v) a ha rfl hw

/-- Claim C4 witness: address 3 of a 2-word program, after an unrelated write
at address 5, reads 0. -/
theorem claim4_witness :
    ([1, 2] : List Number).length ≤ 3 ∧
      (applyWrites (Program.new [1, 2]) [(5, 7)]).get_mem 3 = 0 :=
  ⟨by decide, claim4_unwritten_reads_zero [1, 2] [(5, 7)] 3 (by decide) (by decide)⟩

/-- Claim C10 (implicit): a negative instruction word never decodes: its
truncated-toward-zero opcode digits lie in -99..0, match no operation, and
decoding aborts with an unknown-opcode error. -/
theorem claim10_negative_word_invalid (w : Number) (hw : w < 0) :
    Instruction.ofNumber w = .error (.unknownOpcode (w.tmod 100)) ∧
      -99 ≤ w.tmod 100 ∧ w.tmod 100 ≤ 0 := by
  obtain ⟨hlo, hhi⟩ := tmod_hundred_of_neg w hw
  have hop := opcode_ofNumber_nonpos (w.tmod 100) hhi
  refine ⟨?_, by omega, hhi⟩
  unfold Instruction.ofNumber
  rw [hop]

/-- Claim C10 witness: the word -1 decodes to an unknown-opcode error on
digits -1. -/
theorem claim10_witness :
    Instruction.ofNumber (-1) = .error (.unknownOpcode ((-1 : Number).tmod 100)) ∧
      -99 ≤ (-1 : Number).tmod 100 ∧ (-1 : Number).tmod 100 ≤ 0 :=
  claim10_negative_word_invalid (-1) (by decide)

/-! ### Run-loop and output-queue lemmas -/

theorem get_output_snd_output (q : Program) : ((q.get_output).2).output = q.output := by
  unfold Program.get_output
  split <;> rfl

theorem get_output_snd_pos (q : Program) :
    ((q.get_output).2).output_pos =
      if q.output_pos < q.output.length then q.output_pos + 1 else q.output_pos := by
  unfold Program.get_output Program.has_output
  split
  case isTrue h =>
    simp only [decide_eq_true_eq] at h
    rw [if_pos h]
  case isFalse h =>
    simp only [decide_eq_true_eq] at h
    rw [if_neg h]

theorem get_output_fst (q : Program) :
    (q.get_output).1 = q.output[q.output_pos]? := by
  unfold Program.get_output Program.has_output
  split
  case isTrue h =>
    simp only [decide_eq_true_eq] at h
    have hidx : q.output_pos + 1 - 1 = q.output_pos := by omega
    simp only [hidx]
    rw [List.getD_eq_getElem?_getD, List.getElem?_eq_getElem h]
    rfl
  case isFalse h =>
    simp only [decide_eq_true_eq] at h
    exact (List.getElem?_eq_none (by omega)).symm

theorem drainN_succ (n : Nat) (p : Program) :
    drainN (n + 1) p = ((drainN n p).get_output).2 := by
  unfold drainN
  exact Function.iterate_succ_apply' _ n p

theorem drainN_output (n : Nat) (p : Program) : (drainN n p).output = p.output := by
  induction n with
  | zero => rfl
  | succ n ih => rw [drainN_succ, get_output_snd_output, ih]

theorem drainN_output_pos (n : Nat) (p : Program) :
    (drainN n p).output_pos =
      min (p.output_pos + n) (max p.output_pos p.output.length) := by
  induction n with
  | zero =>
    have h0 : drainN 0 p = p := rfl
    rw [h0]
    omega
  | succ n ih =>
    rw [drainN_succ, get_output_snd_pos, drainN_output, ih]
    split <;> omega

/-! ### Claims C1, C8, C9 -/

/-- Claim C1: contrary to the claim (and to the method's own doc comment), the
public run loop checks the halted-or-blocked guard before executing anything,
so invoking it on a VM already in the Halted state returns normally with the
VM unchanged, for any fuel; the halted-program panic inside
execute_instruction is unreachable from the public run method. -/
theorem claim1_run_on_halted_returns_normally (p : Program) (fuel : Nat)
    (h : p.state = ProgramState.Halted) :
    p.run_till_halted_or_blocked fuel = .ok (some p) := by
  have hb : p.halted_or_blocked = true := by
    unfold Program.halted_or_blocked
    rw [h]
  unfold Program.run_till_halted_or_blocked
  rw [if_pos hb]

/-- Claim C1 witness: a concrete Halted VM on which the run method returns
normally, its state unchanged. -/
theorem claim1_witness :
    (⟨[99], 0, [], 0, [], 0, ProgramState.Halted, [], 0⟩ : Program).run_till_halted_or_blocked 5 =
      .ok (some (⟨[99], 0, [], 0, [], 0, ProgramState.Halted, [], 0⟩ : Program)) :=
  claim1_run_on_halted_returns_normally _ 5 rfl

/-- Claim C8: resolving a write-destination address in Immediate mode is a
fatal error raised at address-resolution time, and a destination address is
returned only when the parameter's mode is not Immediate. -/
theorem claim8_immediate_write_target (p : Program) (k : Nat) (instr : Instruction)
    (mode : ParameterMode)
    (hdec : Instruction.ofNumber (p.get_mem p.sp) = .ok instr)
    (hmode : instr.modeOf k = some mode) :
    (mode = ParameterMode.Immediate → p.get_pos k = .error .immediatePosition) ∧
      (∀ a, p.get_pos k = .ok a → mode ≠ ParameterMode.Immediate) := by
  have hval : mode = ParameterMode.Immediate →
      p.get_pos k = .error .immediatePosition := by
    intro hm
    subst hm
    simp only [Program.get_pos, hdec, hmode]
  refine ⟨hval, ?_⟩
  intro a ha hm
  rw [hval hm] at ha
  simp at ha

/-- Claim C8 witness: parameter 3 of the instruction word 10001 (Add with an
Immediate destination mode) fails to resolve to a write address. -/
theorem claim8_witness :
    (Program.new [10001, 2, 3, 4, 99]).get_pos 3 = .error .immediatePosition :=
  (claim8_immediate_write_target (Program.new [10001, 2, 3, 4, 99]) 3
    { opcode := .Add, param1 := .Position, param2 := .Position,
      param3 := .Immediate }
    ParameterMode.Immediate rfl rfl).1 rfl

/-- Claim C9: the n-th successive get_output call returns the n-th unread
output in emission (FIFO) order and none once all emitted outputs are
consumed; last_output is the most recently emitted value regardless of the
drain cursor, even after draining, and is none exactly when nothing was ever
emitted. -/
theorem claim9_output_queues (p : Program) (n : Nat) :
    ((drainN n p).get_output).1 = p.output[p.output_pos + n]? ∧
      (drainN n p).last_output = p.last_output ∧
      p.last_output = p.output.getLast? ∧
      (p.last_output = none ↔ p.output = []) := by
  have hlast : p.last_output = p.output.getLast? := by
    unfold Program.last_output
    match hout : p.output with
    | [] => simp
    | x :: xs =>
      rw [if_pos (by simp), List.getLast?_eq_getElem?,
        List.getD_eq_getElem?_getD,
        List.getElem?_eq_getElem (by simp)]
      rfl
  refine ⟨?_, ?_, hlast, ?_⟩
  · rw [get_output_fst, drainN_output, drainN_output_pos]
    by_cases h : p.output_pos + n < p.output.length
    · have hmin : min (p.output_pos + n) (max p.output_pos p.output.length) =
          p.output_pos + n := by omega
      rw [hmin]
    · rw [List.getElem?_eq_none (by omega), List.getElem?_eq_none (by omega)]
  · unfold Program.last_output
    rw [drainN_output]
  · rw [hlast, List.getLast?_eq_none_iff]

/-! ### execute_instruction lemmas -/

theorem increase_sp_ok_of (q : Program) (instr : Instruction)
    (h : Instruction.ofNumber (q.get_mem q.sp) = .ok instr) :
    q.increase_sp = .ok { q with sp := q.sp + instr.opcode.width } := by
  unfold Program.increase_sp
  rw [h]

theorem increase_sp_error_eq (q r : Program) (e : ExecError)
    (h : q.increase_sp = .error (e, r)) : r = q := by
  unfold Program.increase_sp at h
  split at h
  · simp only [Except.error.injEq, Prod.mk.injEq] at h
    exact h.2.symm
  · simp at h

theorem increase_sp_ok_state (q r : Program) (h : q.increase_sp = .ok r) :
    r.state = q.state := by
  unfold Program.increase_sp at h
  split at h
  · simp at h
  · simp only [Except.ok.injEq] at h
    rw [← h]

theorem get_mem_congr (q r : Program) (h1 : q.program = r.program)
    (h2 : q.extra_memory = r.extra_memory) (a : Nat) :
    q.get_mem a = r.get_mem a := by
  unfold Program.get_mem
  rw [h1, h2]

theorem resultState_increase_sp_get_mem (q : Program) (a : Nat) :
    (resultState q.increase_sp).get_mem a = q.get_mem a := by
  unfold Program.increase_sp
  split <;> rfl

theorem resultState_increase_sp_input_pos (q : Program) :
    (resultState q.increase_sp).input_pos = q.input_pos := by
  unfold Program.increase_sp
  split <;> rfl

theorem set_mem_sp (p : Program) (a : Nat) (v : Number) :
    (p.set_mem a v).sp = p.sp := by
  unfold Program.set_mem
  split <;> rfl

theorem set_mem_input (p : Program) (a : Nat) (v : Number) :
    (p.set_mem a v).input = p.input := by
  unfold Program.set_mem
  split <;> rfl

theorem set_mem_input_pos (p : Program) (a : Nat) (v : Number) :
    (p.set_mem a v).input_pos = p.input_pos := by
  unfold Program.set_mem
  split <;> rfl

theorem set_mem_output (p : Program) (a : Nat) (v : Number) :
    (p.set_mem a v).output = p.output := by
  unfold Program.set_mem
  split <;> rfl

theorem set_mem_output_pos (p : Program) (a : Nat) (v : Number) :
    (p.set_mem a v).output_pos = p.output_pos := by
  unfold Program.set_mem
  split <;> rfl

theorem set_mem_relative_base (p : Program) (a : Nat) (v : Number) :
    (p.set_mem a v).relative_base = p.relative_base := by
  unfold Program.set_mem
  split <;> rfl

theorem increase_sp_ne_error (q : Program) (instr : Instruction)
    (h : Instruction.ofNumber (q.get_mem q.sp) = .ok instr) (ep : ExecError × Program) :
    q.increase_sp ≠ .error ep := by
  rw [increase_sp_ok_of q instr h]
  simp

theorem execute_error_fields (p r : Program) (e : ExecError)
    (h : p.execute_instruction = .error (e, r)) :
    r.sp = p.sp ∧ r.output = p.output ∧ r.output_pos = p.output_pos ∧
      r.relative_base = p.relative_base ∧ r.state = p.state ∧ r.input = p.input := by
  have herr : ∀ (e0 : ExecError) (q : Program),
      (Except.error (e0, q) : Except (ExecError × Program) Program) =
        .error (e, r) → r = q := by
    intro e0 q hq
    simp only [Except.error.injEq, Prod.mk.injEq] at hq
    exact hq.2.symm
  unfold Program.execute_instruction at h
  split at h
  case h_1 e0 heq =>
    obtain rfl := herr e0 p h
    exact ⟨rfl, rfl, rfl, rfl, rfl, rfl⟩
  case h_2 instr heq =>
    split at h
    case isTrue hst =>
      obtain rfl := herr .runHalted p h
      exact ⟨rfl, rfl, rfl, rfl, rfl, rfl⟩
    case isFalse hst =>
      have hfin : ∀ q1 : Program, q1.increase_sp = .error (e, r) → r = q1 :=
        fun q1 hq => increase_sp_error_eq q1 r e hq
      split at h
      -- Add
      · split at h
        · obtain rfl := herr _ _ h
          exact ⟨rfl, rfl, rfl, rfl, rfl, rfl⟩
        · split at h
          · obtain rfl := herr _ _ h
            exact ⟨rfl, rfl, rfl, rfl, rfl, rfl⟩
          · split at h
            · obtain rfl := herr _ _ h
              exact ⟨rfl, rfl, rfl, rfl, rfl, rfl⟩
            · obtain rfl := hfin _ h
              exact ⟨set_mem_sp _ _ _, set_mem_output _ _ _, set_mem_output_pos _ _ _,
                set_mem_relative_base _ _ _, set_mem_state _ _ _, set_mem_input _ _ _⟩
      -- Multiply
      · split at h
        · obtain rfl := herr _ _ h
          exact ⟨rfl, rfl, rfl, rfl, rfl, rfl⟩
        · split at h
          · obtain rfl := herr _ _ h
            exact ⟨rfl, rfl, rfl, rfl, rfl, rfl⟩
          · split at h
            · obtain rfl := herr _ _ h
              exact ⟨rfl, rfl, rfl, rfl, rfl, rfl⟩
            · obtain rfl := hfin _ h
              exact ⟨set_mem_sp _ _ _, set_mem_output _ _ _, set_mem_output_pos _ _ _,
                set_mem_relative_base _ _ _, set_mem_state _ _ _, set_mem_input _ _ _⟩
      -- Input
      · split at h
        · split at h
          case _ input p1 heqp =>
            have hp1 : p1 = { p with input_pos := p.input_pos + 1 } := by
              simp only [Program.get_input, Prod.mk.injEq] at heqp
              exact heqp.2.symm
            split at h
            · obtain rfl := herr _ _ h
              rw [hp1]
              exact ⟨rfl, rfl, rfl, rfl, rfl, rfl⟩
            · obtain rfl := hfin _ h
              rw [hp1]
              exact ⟨set_mem_sp _ _ _, set_mem_output _ _ _, set_mem_output_pos _ _ _,
                set_mem_relative_base _ _ _, set_mem_state _ _ _, set_mem_input _ _ _⟩
        · simp at h
      -- Output
      · split at h
        · obtain rfl := herr _ _ h
          exact ⟨rfl, rfl, rfl, rfl, rfl, rfl⟩
        · rename_i v heqv
          exact absurd h (increase_sp_ne_error (p.push_output v) instr heq _)
      -- JumpIfTrue
      · split at h
        · obtain rfl := herr _ _ h
          exact ⟨rfl, rfl, rfl, rfl, rfl, rfl⟩
        · split at h
          · split at h
            · obtain rfl := herr _ _ h
              exact ⟨rfl, rfl, rfl, rfl, rfl, rfl⟩
            · simp at h
          · obtain rfl := hfin _ h
            exact ⟨rfl, rfl, rfl, rfl, rfl, rfl⟩
      -- JumpIfFalse
      · split at h
        · obtain rfl := herr _ _ h
          exact ⟨rfl, rfl, rfl, rfl, rfl, rfl⟩
        · split at h
          · split at h
            · obtain rfl := herr _ _ h
              exact ⟨rfl, rfl, rfl, rfl, rfl, rfl⟩
            · simp at h
          · obtain rfl := hfin _ h
            exact ⟨rfl, rfl, rfl, rfl, rfl, rfl⟩
      -- LessThan
      · split at h
        · obtain rfl := herr _ _ h
          exact ⟨rfl, rfl, rfl, rfl, rfl, rfl⟩
        · split at h
          · obtain rfl := herr _ _ h
            exact ⟨rfl, rfl, rfl, rfl, rfl, rfl⟩
          · split at h
            · obtain rfl := herr _ _ h
              exact ⟨rfl, rfl, rfl, rfl, rfl, rfl⟩
            · obtain rfl := hfin _ h
              exact ⟨set_mem_sp _ _ _, set_mem_output _ _ _, set_mem_output_pos _ _ _,
                set_mem_relative_base _ _ _, set_mem_state _ _ _, set_mem_input _ _ _⟩
      -- Equals
      · split at h
        · obtain rfl := herr _ _ h
          exact ⟨rfl, rfl, rfl, rfl, rfl, rfl⟩
        · split at h
          · obtain rfl := herr _ _ h
            exact ⟨rfl, rfl, rfl, rfl, rfl, rfl⟩
          · split at h
            · obtain rfl := herr _ _ h
              exact ⟨rfl, rfl, rfl, rfl, rfl, rfl⟩
            · obtain rfl := hfin _ h
              exact ⟨set_mem_sp _ _ _, set_mem_output _ _ _, set_mem_output_pos _ _ _,
                set_mem_relative_base _ _ _, set_mem_state _ _ _, set_mem_input _ _ _⟩
      -- RelativeBaseOffset
      · split at h
        · obtain rfl := herr _ _ h
          exact ⟨rfl, rfl, rfl, rfl, rfl, rfl⟩
        · rename_i v heqv
          exact absurd h (increase_sp_ne_error
            { p with relative_base := i64wrap (p.relative_base + v) } instr heq _)
      -- Halt
      · exact absurd h (increase_sp_ne_error
          { p with state := ProgramState.Halted } instr heq _)

theorem push_output_state (p : Program) (v : Number) :
    (p.push_output v).state = p.state := rfl

theorem execute_ok_halted (p q : Program) (h : p.execute_instruction = .ok q)
    (hq : q.state = ProgramState.Halted) :
    ∃ instr, Instruction.ofNumber (p.get_mem p.sp) = .ok instr ∧
      instr.opcode = Opcode.Halt := by
  unfold Program.execute_instruction at h
  split at h
  · simp at h
  case h_2 instr heq =>
    split at h
    · simp at h
    case isFalse hst =>
      have hend : ∀ q1 : Program, q1.increase_sp = .ok q → q.state = q1.state :=
        fun q1 hq1 => increase_sp_ok_state q1 q hq1
      split at h
      -- Add
      · split at h
        · simp at h
        · split at h
          · simp at h
          · split at h
            · simp at h
            · have hs := hend _ h
              rw [set_mem_state] at hs
              exact absurd (hq ▸ hs).symm hst
      -- Multiply
      · split at h
        · simp at h
        · split at h
          · simp at h
          · split at h
            · simp at h
            · have hs := hend _ h
              rw [set_mem_state] at hs
              exact absurd (hq ▸ hs).symm hst
      -- Input
      · split at h
        · split at h
          case _ input p1 heqp =>
            have hp1 : p1.state = p.state := by
              simp only [Program.get_input, Prod.mk.injEq] at heqp
              rw [← heqp.2]
            split at h
            · simp at h
            · have hs := hend _ h
              rw [set_mem_state, hp1] at hs
              exact absurd (hq ▸ hs).symm hst
        · simp only [Except.ok.injEq] at h
          rw [← h] at hq
          simp at hq
      -- Output
      · split at h
        · simp at h
        · have hs := hend _ h
          rw [push_output_state] at hs
          exact absurd (hq ▸ hs).symm hst
      -- JumpIfTrue
      · split at h
        · simp at h
        · split at h
          · split at h
            · simp at h
            · simp only [Except.ok.injEq] at h
              rw [← h] at hq
              exact absurd hq hst
          · have hs := hend _ h
            exact absurd (hq ▸ hs).symm hst
      -- JumpIfFalse
      · split at h
        · simp at h
        · split at h
          · split at h
            · simp at h
            · simp only [Except.ok.injEq] at h
              rw [← h] at hq
              exact absurd hq hst
          · have hs := hend _ h
            exact absurd (hq ▸ hs).symm hst
      -- LessThan
      · split at h
        · simp at h
        · split at h
          · simp at h
          · split at h
            · simp at h
            · have hs := hend _ h
              rw [set_mem_state] at hs
              exact absurd (hq ▸ hs).symm hst
      -- Equals
      · split at h
        · simp at h
        · split at h
          · simp at h
          · split at h
            · simp at h
            · have hs := hend _ h
              rw [set_mem_state] at hs
              exact absurd (hq ▸ hs).symm hst
      -- RelativeBaseOffset
      · split at h
        · simp at h
        · have hs := hend _ h
          exact absurd (hq ▸ hs).symm hst
      -- Halt
      · exact ⟨instr, heq, by assumption⟩

theorem get_pos_immediate (p : Program) (k : Nat) (instr : Instruction)
    (hdec : Instruction.ofNumber (p.get_mem p.sp) = .ok instr)
    (hmode : instr.modeOf k = some ParameterMode.Immediate) :
    p.get_pos k = .error .immediatePosition := by
  simp only [Program.get_pos, hdec, hmode]

/-- Claim C6: the run state becomes Halted only by executing the Halt opcode
(code 99), and on a Halted VM the mutating public operations push_input and
get_output leave the state Halted (the remaining public queries last_output,
has_output, halted and halted_or_blocked are read-only by definition and
return no program at all). -/
theorem claim6_halted_terminal (p : Program) (x : Number) :
    (∀ q, p.execute_instruction = .ok q → q.state = ProgramState.Halted →
        ∃ instr, Instruction.ofNumber (p.get_mem p.sp) = .ok instr ∧
          instr.opcode = Opcode.Halt) ∧
      (p.state = ProgramState.Halted →
        (p.push_input x).state = ProgramState.Halted ∧
          ((p.get_output).2).state = ProgramState.Halted) := by
  constructor
  · exact fun q h hq => execute_ok_halted p q h hq
  · intro hst
    constructor
    · simp [Program.push_input, hst]
    · unfold Program.get_output
      split
      · exact hst
      · exact hst

/-- Claim C6 witness: executing the Halt opcode of the program consisting only
of the word 99 is what halts it, and pushing input on a concrete Halted VM
leaves it Halted. -/
theorem claim6_witness :
    (∃ instr,
        Instruction.ofNumber ((Program.new [99]).get_mem (Program.new [99]).sp) =
          .ok instr ∧ instr.opcode = Opcode.Halt) ∧
      ((⟨[99], 1, [], 0, [], 0, ProgramState.Halted, [], 0⟩ : Program).push_input 5).state =
        ProgramState.Halted :=
  ⟨(claim6_halted_terminal (Program.new [99]) 0).1
      ⟨[99], 0, [], 0, [], 0, ProgramState.Halted, [], 0⟩ rfl rfl,
    ((claim6_halted_terminal (⟨[99], 1, [], 0, [], 0, ProgramState.Halted, [], 0⟩ : Program) 5).2
      rfl).1⟩

/-- Claim C2 counterexample: the Input instruction 103 (Immediate destination
mode) with a queued input value consumes the input — the read cursor advances
from 0 to 1 — before the immediate-write-address panic fires, so not all side
effects are unapplied at the moment the error occurs. -/
theorem claim2_counterexample :
    ((Program.new [103, 0, 99]).push_input 42).execute_instruction =
        .error (.immediatePosition,
          ⟨[103, 0, 99], 0, [42], 1, [], 0, ProgramState.Running, [], 0⟩) ∧
      ((Program.new [103, 0, 99]).push_input 42).input_pos = 0 :=
  ⟨rfl, rfl⟩

/-- Claim C2 amended: a fatal error raised before dispatch (unknown opcode or
parameter mode in the current word) or at write-address resolution for the
three-parameter ops leaves the whole state unchanged; an Input instruction
with an Immediate destination mode first consumes its input (the read cursor
advances) and then fails; and on every fatal error the instruction pointer,
output queue and cursor, relative base, run state and input queue contents
are unchanged at the moment the error occurs (memory and the input cursor
can already be mutated only when the error arises from re-decoding an
instruction word that the instruction itself overwrote while advancing the
pointer). -/
theorem claim2_error_atomicity_amended (p : Program) :
    (∀ e, Instruction.ofNumber (p.get_mem p.sp) = .error e →
        p.execute_instruction = .error (e, p)) ∧
      (∀ instr, Instruction.ofNumber (p.get_mem p.sp) = .ok instr →
        p.state ≠ ProgramState.Halted →
        (instr.opcode = Opcode.Add ∨ instr.opcode = Opcode.Multiply ∨
          instr.opcode = Opcode.LessThan ∨ instr.opcode = Opcode.Equals) →
        instr.param3 = ParameterMode.Immediate →
        p.execute_instruction = .error (.immediatePosition, p)) ∧
      (∀ instr, Instruction.ofNumber (p.get_mem p.sp) = .ok instr →
        p.state ≠ ProgramState.Halted → instr.opcode = Opcode.Input →
        p.input.length > p.input_pos → instr.param1 = ParameterMode.Immediate →
        p.execute_instruction =
          .error (.immediatePosition, { p with input_pos := p.input_pos + 1 })) ∧
      (∀ e r, p.execute_instruction = .error (e, r) →
        r.sp = p.sp ∧ r.output = p.output ∧ r.output_pos = p.output_pos ∧
          r.relative_base = p.relative_base ∧ r.state = p.state ∧
          r.input = p.input) := by
  refine ⟨?_, ?_, ?_, fun e r h => execute_error_fields p r e h⟩
  · intro e hdec
    unfold Program.execute_instruction
    rw [hdec]
  · intro instr hdec hst hops h3
    have hpos : p.get_pos 3 = .error .immediatePosition :=
      get_pos_immediate p 3 instr hdec (by rw [show instr.modeOf 3 = some instr.param3
        from rfl, h3])
    obtain ⟨op, m1, m2, m3⟩ := instr
    rcases hops with hop | hop | hop | hop <;>
      (have hop2 : op = _ := hop; subst hop2;
        simp only [Program.execute_instruction, hdec, if_neg hst, hpos])
  · intro instr hdec hst hop hlen h1
    obtain ⟨op, m1, m2, m3⟩ := instr
    have hop2 : op = Opcode.Input := hop
    subst hop2
    simp only [Program.execute_instruction, hdec, if_neg hst, if_pos hlen,
      Program.get_input]
    have hpos1 : ({ p with input_pos := p.input_pos + 1 } : Program).get_pos 1 =
        .error .immediatePosition :=
      get_pos_immediate _ 1 ⟨Opcode.Input, m1, m2, m3⟩ hdec
        (by rw [show Instruction.modeOf ⟨Opcode.Input, m1, m2, m3⟩ 1 = some m1
          from rfl, show m1 = ParameterMode.Immediate from h1])
    simp only [hpos1]

/-- Claim C2 amended witness: a word that is no instruction leaves the state
untouched at the error, and the Input-with-Immediate-destination program
consumes its input before failing. -/
theorem claim2_amended_witness :
    (Program.new [0]).execute_instruction = .error (.unknownOpcode 0, Program.new [0]) ∧
      ((Program.new [103, 0, 99]).push_input 42).execute_instruction =
        .error (.immediatePosition,
          { (Program.new [103, 0, 99]).push_input 42 with
              input_pos := ((Program.new [103, 0, 99]).push_input 42).input_pos + 1 }) :=
  ⟨(claim2_error_atomicity_amended (Program.new [0])).1 (.unknownOpcode 0) rfl,
    (claim2_error_atomicity_amended ((Program.new [103, 0, 99]).push_input 42)).2.2.1
      ⟨Opcode.Input, ParameterMode.Immediate, ParameterMode.Position, ParameterMode.Position⟩
      rfl (by decide) rfl (by decide) rfl⟩

/-- Claim C3: Add stores the two's-complement-wrapped sum and Multiply the
wrapped product of its resolved operands (release-profile i64 semantics:
wrap modulo 2^64 into the signed range, never any abort), whatever the
outcome of the subsequent pointer advance. -/
theorem claim3_add_multiply_wrap (p : Program) (instr : Instruction) (addr : Nat)
    (v1 v2 : Number)
    (hdec : Instruction.ofNumber (p.get_mem p.sp) = .ok instr)
    (hop : instr.opcode = Opcode.Add ∨ instr.opcode = Opcode.Multiply)
    (hst : p.state ≠ ProgramState.Halted)
    (hpos : p.get_pos 3 = .ok addr)
    (h1 : p.param 1 = .ok v1) (h2 : p.param 2 = .ok v2) :
    (resultState p.execute_instruction).get_mem addr =
        i64wrap (if instr.opcode = Opcode.Add then v1 + v2 else v1 * v2) ∧
      ∀ x : Int, (i64wrap x - x) % 2 ^ 64 = 0 ∧ -(2 ^ 63) ≤ i64wrap x ∧
        i64wrap x < 2 ^ 63 := by
  constructor
  · obtain ⟨op, m1, m2, m3⟩ := instr
    rcases hop with hA | hM
    · have hop2 : op = Opcode.Add := hA
      subst hop2
      simp only [Program.execute_instruction, hdec, if_neg hst, hpos, h1, h2]
      rw [resultState_increase_sp_get_mem, set_mem_get_mem_same]
      simp
    · have hop2 : op = Opcode.Multiply := hM
      subst hop2
      simp only [Program.execute_instruction, hdec, if_neg hst, hpos, h1, h2]
      rw [resultState_increase_sp_get_mem, set_mem_get_mem_same]
      simp
  · intro x
    unfold i64wrap
    have h64 : (2 : Int) ^ 64 = 18446744073709551616 := by norm_num
    have h63 : (2 : Int) ^ 63 = 9223372036854775808 := by norm_num
    rw [h64, h63]
    omega

/-- Claim C3 witness: the Add instruction 1101 with immediate operands 30 and
12 stores 42 (the in-range wrap of the sum) at address 5. -/
theorem claim3_witness :
    (resultState (Program.new [1101, 30, 12, 5, 99, 0]).execute_instruction).get_mem 5 =
      i64wrap (if (Instruction.mk Opcode.Add ParameterMode.Immediate ParameterMode.Immediate
          ParameterMode.Position).opcode = Opcode.Add then 30 + 12 else 30 * 12) :=
  (claim3_add_multiply_wrap (Program.new [1101, 30, 12, 5, 99, 0])
    ⟨Opcode.Add, ParameterMode.Immediate, ParameterMode.Immediate, ParameterMode.Position⟩
    5 30 12 rfl (Or.inl rfl) (by decide) rfl rfl rfl).1

theorem input_exec_consume (q : Program) (m1 m2 m3 : ParameterMode)
    (hdecq : Instruction.ofNumber (q.get_mem q.sp) = .ok ⟨Opcode.Input, m1, m2, m3⟩)
    (hstq : q.state ≠ ProgramState.Halted)
    (hlenq : q.input.length > q.input_pos)
    (hm1 : m1 ≠ ParameterMode.Immediate) :
    ∃ addr, q.get_pos 1 = .ok addr ∧
      (resultState q.execute_instruction).get_mem addr = q.input.getD q.input_pos 0 ∧
      (resultState q.execute_instruction).input_pos = q.input_pos + 1 := by
  cases m1 with
  | Immediate => exact absurd rfl hm1
  | Position =>
    have haddr : q.get_pos 1 = .ok (usizeOf (q.get_mem (q.sp + 1))) := by
      simp only [Program.get_pos, hdecq, Instruction.modeOf]
    have haddr1 : ({ q with input_pos := q.input_pos + 1 } : Program).get_pos 1 =
        .ok (usizeOf (q.get_mem (q.sp + 1))) := haddr
    refine ⟨usizeOf (q.get_mem (q.sp + 1)), haddr, ?_, ?_⟩
    · simp only [Program.execute_instruction, hdecq, if_neg hstq, if_pos hlenq,
        Program.get_input, haddr1]
      rw [resultState_increase_sp_get_mem, set_mem_get_mem_same]
    · simp only [Program.execute_instruction, hdecq, if_neg hstq, if_pos hlenq,
        Program.get_input, haddr1]
      rw [resultState_increase_sp_input_pos, set_mem_input_pos]
  | Relative =>
    have haddr : q.get_pos 1 =
        .ok (usizeOf (i64wrap (q.relative_base + q.get_mem (q.sp + 1)))) := by
      simp only [Program.get_pos, hdecq, Instruction.modeOf]
    have haddr1 : ({ q with input_pos := q.input_pos + 1 } : Program).get_pos 1 =
        .ok (usizeOf (i64wrap (q.relative_base + q.get_mem (q.sp + 1)))) := haddr
    refine ⟨usizeOf (i64wrap (q.relative_base + q.get_mem (q.sp + 1))), haddr, ?_, ?_⟩
    · simp only [Program.execute_instruction, hdecq, if_neg hstq, if_pos hlenq,
        Program.get_input, haddr1]
      rw [resultState_increase_sp_get_mem, set_mem_get_mem_same]
    · simp only [Program.execute_instruction, hdecq, if_neg hstq, if_pos hlenq,
        Program.get_input, haddr1]
      rw [resultState_increase_sp_input_pos, set_mem_input_pos]

/-- Claim C5: an Input instruction with no unread input sets the state to
WaitingForInput leaving every other component (in particular the pointer)
unchanged; push_input then returns the VM to Running, pointer still
unchanged, so the same Input instruction re-executes and consumes exactly
the value just appended, storing it at its resolved destination and
advancing the input cursor past it. -/
theorem claim5_input_block_resume (p : Program) (instr : Instruction) (x : Number)
    (hdec : Instruction.ofNumber (p.get_mem p.sp) = .ok instr)
    (hop : instr.opcode = Opcode.Input)
    (hrun : p.state = ProgramState.Running)
    (hempty : p.input_pos = p.input.length)
    (hmode : instr.param1 ≠ ParameterMode.Immediate) :
    p.execute_instruction = .ok { p with state := ProgramState.WaitingForInput } ∧
      ({ p with state := ProgramState.WaitingForInput } : Program).push_input x =
        { p with state := ProgramState.Running, input := p.input ++ [x] } ∧
      ∃ addr,
        ({ p with
            state := ProgramState.Running,
            input := p.input ++ [x] } : Program).get_pos 1 = .ok addr ∧
          (resultState ({ p with
              state := ProgramState.Running,
              input := p.input ++ [x] } : Program).execute_instruction).get_mem addr = x ∧
          (resultState ({ p with
              state := ProgramState.Running,
              input := p.input ++ [x] } : Program).execute_instruction).input_pos =
            p.input_pos + 1 := by
  obtain ⟨op, m1, m2, m3⟩ := instr
  have hop2 : op = Opcode.Input := hop
  subst hop2
  have hm1 : m1 ≠ ParameterMode.Immediate := hmode
  have hstn : p.state ≠ ProgramState.Halted := by rw [hrun]; simp
  refine ⟨?_, rfl, ?_⟩
  · simp only [Program.execute_instruction, hdec, if_neg hstn]
    rw [if_neg (show ¬p.input.length > p.input_pos by omega)]
  · obtain ⟨addr, haddr, hmem, hcur⟩ :=
      input_exec_consume
        ({ p with state := ProgramState.Running, input := p.input ++ [x] } : Program)
        m1 m2 m3 hdec
        (show ¬ProgramState.Running = ProgramState.Halted by simp)
        (show (p.input ++ [x]).length > p.input_pos by
          rw [List.length_append, List.length_singleton, hempty]; omega)
        hm1
    refine ⟨addr, haddr, ?_, hcur⟩
    rw [hmem]
    show (p.input ++ [x]).getD p.input_pos 0 = x
    rw [hempty, List.getD_eq_getElem?_getD, List.getElem?_concat_length]
    rfl

/-- Claim C5 witness: the program 3,3,99 blocks awaiting input with the
pointer still at 0; pushing 42 resumes it and re-executing the same Input
instruction stores 42 at address 3 and advances the input cursor to 1. -/
theorem claim5_witness :
    (Program.new [3, 3, 99]).execute_instruction =
        .ok { Program.new [3, 3, 99] with state := ProgramState.WaitingForInput } ∧
      ({ Program.new [3, 3, 99] with state := ProgramState.WaitingForInput } : Program).push_input 42 =
        { Program.new [3, 3, 99] with state := ProgramState.Running, input := (Program.new [3, 3, 99]).input ++ [42] } ∧
      ∃ addr,
        ({ Program.new [3, 3, 99] with state := ProgramState.Running, input := (Program.new [3, 3, 99]).input ++ [42] } : Program).get_pos 1 =
          .ok addr ∧
          (resultState ({ Program.new [3, 3, 99] with state := ProgramState.Running, input := (Program.new [3, 3, 99]).input ++ [42] } : Program).execute_instruction).get_mem addr = 42 ∧
          (resultState ({ Program.new [3, 3, 99] with state := ProgramState.Running, input := (Program.new [3, 3, 99]).input ++ [42] } : Program).execute_instruction).input_pos =
            (Program.new [3, 3, 99]).input_pos + 1 :=
  claim5_input_block_resume (Program.new [3, 3, 99])
    ⟨Opcode.Input, ParameterMode.Position, ParameterMode.Position, ParameterMode.Position⟩
    42 rfl rfl rfl rfl (by decide)

end Intcode
